import Mathlib

/-!
# parquetgoexamples: the benchmark harness of `main.go`

A shallow embedding of `main.go`: the `Person` record, `generateDataset`, and the
row-level behaviour of the three adapters (`parquetOperations`, `csvOperations`,
`jsonOperations`).

Conventions of the embedding

* Go `int` / `int32` values are Lean `Int`s; the conversion `int32(x)` is the explicit
  wrap `toInt32`.  The loop counter of `generateDataset` stays below `n`, so `i++`
  never leaves the range of `int` and carries no wrap.
* Go `string` is Lean `String`.
* `float64` and the `strconv` / `encoding/json` float routines are a parameter
  (`Float64Lib`): the program only moves floats around, multiplies an index by a
  constant, prints and parses them.
* A run either returns or stops the process: `log.Fatalf` is `Failure.fatal`, a Go
  run-time panic is `Failure.runtimePanic`.
* Time measurements and file sizes are not modelled.  A file is identified with the
  sequence of records (CSV, parquet) or the document (JSON) that the library stores
  in it; the textual layer of `encoding/csv` and the binary layer of `parquet-go`
  are the libraries' own.
-/

namespace ParquetBench

/-! ## Process outcomes -/

/-- How a run can stop without returning. -/
inductive Failure where
  /-- The call `log.Fatalf(msg, err)`: the process exits with status 1. -/
  | fatal (msg : String)
  /-- A Go run-time panic (index out of range, negative `make` length). -/
  | runtimePanic (msg : String)
  /-- The iteration budget of a modelled loop ran out (never reached, see the theorems). -/
  | outOfFuel
  deriving DecidableEq, Repr

deriving instance DecidableEq for Except

/-- A Go slice: `nil`, or a (possibly empty) backing sequence. -/
inductive Slice (α : Type) where
  | nil
  | ofList (elems : List α)
  deriving DecidableEq, Repr

/-- The elements of a slice, `nil` having none. -/
def Slice.toList {α : Type} : Slice α → List α
  | Slice.nil => []
  | Slice.ofList l => l

/-- The Go builtin `len(s)`. -/
def Slice.len {α : Type} (s : Slice α) : Nat := s.toList.length

/-- The Go builtin `append(s, x)`: the result is never `nil`. -/
def Slice.append {α : Type} (s : Slice α) (x : α) : Slice α :=
  Slice.ofList (s.toList ++ [x])

/-! ## Machine integers -/

/-- The conversion `int32(x)` of a Go `int`: the low 32 bits, read in two's complement. -/
def toInt32 (x : Int) : Int := (x + 2 ^ 31) % 2 ^ 32 - 2 ^ 31

/-- The values of type `int32`. -/
def isInt32 (x : Int) : Prop := -(2 ^ 31) ≤ x ∧ x < 2 ^ 31

/-- The values of type `int` on a 64-bit platform. -/
def isInt64 (x : Int) : Prop := -(2 ^ 63) ≤ x ∧ x < 2 ^ 63

instance (x : Int) : Decidable (isInt32 x) := by unfold isInt32; infer_instance

instance (x : Int) : Decidable (isInt64 x) := by unfold isInt64; infer_instance

/-! ## `strconv`: integers -/

/-- The ASCII digit of `d < 10`: `byte('0' + d)`. -/
def digitChar (d : Nat) : Char := Char.ofNat (48 + d)

/-- The digit loop of `strconv.formatBits` in base 10: digits are produced from the
least significant one and stored right to left in front of `acc`. -/
def formatBitsLoop : Nat → Nat → List Char → List Char
  | 0, _, acc => acc
  | fuel + 1, u, acc =>
    if u < 10 then digitChar u :: acc
    else formatBitsLoop fuel (u / 10) (digitChar (u % 10) :: acc)

/-- The decimal digits of an unsigned value (`strconv.formatBits(u, 10, false)`). -/
def formatUint (u : Nat) : List Char := formatBitsLoop (u + 1) u []

/-- The Go function `strconv.Itoa(i)`, that is `FormatInt(int64(i), 10)`; also the text that
the verb `%d` of `fmt.Sprintf` prints for an `int`. -/
def Itoa (i : Int) : String :=
  if i < 0 then String.mk ('-' :: formatUint (-i).toNat) else String.mk (formatUint i.toNat)

/-- The two errors of `strconv` number parsing. -/
inductive NumError where
  | syntaxErr
  | rangeErr
  deriving DecidableEq, Repr

/-- The value of an ASCII decimal digit, `none` for any other character. -/
def digitVal (c : Char) : Option Nat :=
  if 48 ≤ c.toNat ∧ c.toNat ≤ 57 then some (c.toNat - 48) else none

/-- The loop of `strconv.ParseUint(s, 10, 64)` from accumulator `n`: a character that is
no digit is a syntax error, a value above `2^64 - 1` a range error, whichever comes
first from the left. -/
def parseUintLoop : Nat → List Char → Except NumError Nat
  | n, [] => Except.ok n
  | n, c :: cs =>
    match digitVal c with
    | none => Except.error NumError.syntaxErr
    | some d =>
      if n * 10 + d ≥ 2 ^ 64 then Except.error NumError.rangeErr
      else parseUintLoop (n * 10 + d) cs

/-- The Go function `strconv.ParseUint(s, 10, 64)`. -/
def ParseUint (s : List Char) : Except NumError Nat :=
  match s with
  | [] => Except.error NumError.syntaxErr
  | _ => parseUintLoop 0 s

/-- The Go function `strconv.ParseInt(s, 10, 0)` on a 64-bit platform: an optional sign, then
`ParseUint`, then the range check against `2^63`. -/
def ParseInt (s : List Char) : Except NumError Int :=
  match s with
  | [] => Except.error NumError.syntaxErr
  | c :: cs =>
    let neg := decide (c = '-')
    let body := if c = '+' ∨ c = '-' then cs else c :: cs
    match ParseUint body with
    | Except.error e => Except.error e
    | Except.ok un =>
      if ¬ neg ∧ un ≥ 2 ^ 63 then Except.error NumError.rangeErr
      else if neg ∧ un > 2 ^ 63 then Except.error NumError.rangeErr
      else Except.ok (if neg then -(un : Int) else (un : Int))

/-- The Go function `strconv.Atoi(s)`: its fast path for short strings and its slow path
both compute `ParseInt(s, 10, 0)`. -/
def Atoi (s : String) : Except NumError Int := ParseInt s.data

/-! ## `float64` and its library routines -/

/-- The operations on `float64` that the program uses, as a parameter. -/
structure Float64Lib (F : Type) where
  /-- The zero value of `float64`. -/
  zero : F
  /-- The conversion `float64(i)` of an `int`. -/
  ofInt : Int → F
  /-- The product `x * y`. -/
  mul : F → F → F
  /-- The constant `1.5`. -/
  c1_5 : F
  /-- The constant `2.5`. -/
  c2_5 : F
  /-- The call `strconv.FormatFloat(x, 'f', -1, 64)`. -/
  FormatFloat : F → String
  /-- The call `strconv.ParseFloat(s, 64)`, `none` when it returns an error. -/
  ParseFloat : String → Option F
  /-- The number literal `encoding/json` writes for a float, `none` for NaN and the
  infinities (an `UnsupportedValueError`). -/
  jsonFloat : F → Option String
  /-- The string literal, quotes included, `encoding/json` writes for a string. -/
  jsonQuote : String → String

/-! ## The record and the generator -/

/-- The struct `Person` (main.go, lines 17 to 28). -/
structure Person (F : Type) where
  Name : String
  Age : Int
  Email : String
  Score1 : Int
  Score2 : Int
  Score3 : Int
  Score4 : Int
  Score5 : Int
  Balance : F
  Expenditure : F
  deriving DecidableEq, Repr

/-- The zero value `Person{}`. -/
def Person.zeroValue {F : Type} (L : Float64Lib F) : Person F :=
  { Name := "", Age := 0, Email := "", Score1 := 0, Score2 := 0, Score3 := 0,
    Score4 := 0, Score5 := 0, Balance := L.zero, Expenditure := L.zero }

/-- Every integer field holds an `int32`. -/
def Person.WellTyped {F : Type} (p : Person F) : Prop :=
  isInt32 p.Age ∧ isInt32 p.Score1 ∧ isInt32 p.Score2 ∧ isInt32 p.Score3 ∧
    isInt32 p.Score4 ∧ isInt32 p.Score5

instance {F : Type} (p : Person F) : Decidable p.WellTyped := by
  unfold Person.WellTyped; infer_instance

/-- The composite literal of the loop body of `generateDataset` (lines 34 to 45); the
operator `%` of Go is the truncated remainder `Int.tmod`. -/
def newPerson {F : Type} (L : Float64Lib F) (i : Int) : Person F :=
  { Name := "Person_" ++ Itoa i
    Age := toInt32 (Int.tmod i 100)
    Email := "person" ++ Itoa i ++ "@example.com"
    Score1 := toInt32 (Int.tmod i 1000)
    Score2 := toInt32 (Int.tmod i 1000)
    Score3 := toInt32 (Int.tmod i 1000)
    Score4 := toInt32 (Int.tmod i 1000)
    Score5 := toInt32 (Int.tmod i 1000)
    Balance := L.mul (L.ofInt i) L.c1_5
    Expenditure := L.mul (L.ofInt i) L.c2_5 }

/-- The indexed assignment `dataset[i] = p`, which panics outside `0 ≤ i < len(dataset)`. -/
def setIndex {α : Type} (dataset : List α) (i : Int) (p : α) : Except Failure (List α) :=
  if 0 ≤ i ∧ i.toNat < dataset.length then Except.ok (dataset.set i.toNat p)
  else Except.error (Failure.runtimePanic "index out of range")

/-- The loop `for i := 0; i < n; i++ { dataset[i] = Person{...} }` from counter `i`, with
an iteration budget. -/
def generateLoop {F : Type} (L : Float64Lib F) (n : Int) :
    Nat → Int → List (Person F) → Except Failure (List (Person F))
  | 0, _, _ => Except.error Failure.outOfFuel
  | fuel + 1, i, dataset =>
    if i < n then
      match setIndex dataset i (newPerson L i) with
      | Except.error e => Except.error e
      | Except.ok dataset1 => generateLoop L n fuel (i + 1) dataset1
    else Except.ok dataset

/-- The function `generateDataset(n)` (lines 31 to 48): `make([]Person, n)` panics for a
negative `n` and otherwise gives `n` zero values, which the loop overwrites. -/
def generateDataset {F : Type} (L : Float64Lib F) (n : Int) :
    Except Failure (Slice (Person F)) :=
  if n < 0 then Except.error (Failure.runtimePanic "makeslice: len out of range")
  else
    match generateLoop L n (n.toNat + 1) 0 (List.replicate n.toNat (Person.zeroValue L)) with
    | Except.error e => Except.error e
    | Except.ok dataset => Except.ok (Slice.ofList dataset)

/-! ## A small concrete float library

Exact arithmetic on the multiples of one half, enough for the floats the generator
produces (`i * 1.5` and `i * 2.5`).  A value is stored as its number of halves, so
`0.5` is `1` and `2` is `4`; texts other than `d+`, `d+.0` and `d+.5` are refused, and
strings are quoted without escapes.  It serves to run the model on concrete inputs. -/

/-- The text of `h` halves: the integer part, then `.5` when `h` is odd. -/
def halvesFormat (h : Int) : String :=
  let a := h.natAbs
  let body := formatUint (a / 2) ++ (if a % 2 = 1 then ['.', '5'] else [])
  String.mk (if h < 0 then '-' :: body else body)

/-- Parse `d+` or `d+.5` or `d+.0` with an optional sign into a number of halves. -/
def halvesParse (s : String) : Option Int :=
  let cs := s.data
  let neg := decide (cs.head? = some '-')
  let body := if cs.head? = some '-' ∨ cs.head? = some '+' then cs.tail else cs
  let ip := body.takeWhile (fun c => c != '.')
  let fp := body.dropWhile (fun c => c != '.')
  match ParseUint ip with
  | Except.error _ => none
  | Except.ok u =>
    let twice : Option Int :=
      if fp = [] ∨ fp = ['.', '0'] then some (2 * (u : Int))
      else if fp = ['.', '5'] then some (2 * (u : Int) + 1)
      else none
    twice.map (fun v => if neg then -v else v)

/-- The concrete float library on halves. -/
def halves : Float64Lib Int where
  zero := 0
  ofInt := fun i => 2 * i
  mul := fun x y => x * y / 2
  c1_5 := 3
  c2_5 := 5
  FormatFloat := halvesFormat
  ParseFloat := halvesParse
  jsonFloat := fun x => some (halvesFormat x)
  jsonQuote := fun s => "\"" ++ s ++ "\""

/-- A record with an empty `Email` and the extreme `int32` values. -/
def samplePerson : Person Int :=
  { Name := "Ann, \"A\"", Age := -5, Email := "", Score1 := 2147483647,
    Score2 := -2147483648, Score3 := 0, Score4 := 999, Score5 := 10, Balance := 3,
    Expenditure := 21 }

/-! ## CSV adapter (`csvOperations`, lines 111 to 233)

A CSV file is the sequence of records that `csv.Writer` was handed and that
`csv.Reader` yields again. -/

/-- The header row (line 123). -/
def headers : List String :=
  ["Name", "Age", "Email", "Score1", "Score2", "Score3", "Score4", "Score5", "Balance",
    "Expenditure"]

/-- The row built from one record (lines 129 to 140); `int(p.Age)` keeps the value. -/
def csvRecord {F : Type} (L : Float64Lib F) (p : Person F) : List String :=
  [p.Name, Itoa p.Age, p.Email, Itoa p.Score1, Itoa p.Score2, Itoa p.Score3, Itoa p.Score4,
    Itoa p.Score5, L.FormatFloat p.Balance, L.FormatFloat p.Expenditure]

/-- The rows handed to `writer.Write`, in order (lines 124 to 144): the header, then one
row for each record of the `range` loop. -/
def csvWrite {F : Type} (L : Float64Lib F) (dataset : Slice (Person F)) : List (List String) :=
  dataset.toList.foldl (fun written p => written ++ [csvRecord L p]) [headers]

/-- The errors of `csv.Reader.Read` at the level of records. -/
inductive ReadError where
  | EOF
  | ErrFieldCount
  deriving DecidableEq, Repr

/-- The field count check that `csv.Reader.Read` applies to the record it has just parsed:
with `FieldsPerRecord` positive the count must match, with `FieldsPerRecord` zero (the
value `csv.NewReader` sets) the first record fixes it.  The result is the new
`FieldsPerRecord`. -/
def fieldCountCheck (FieldsPerRecord : Int) (record : List String) : Except ReadError Int :=
  if FieldsPerRecord > 0 then
    if (record.length : Int) ≠ FieldsPerRecord then Except.error ReadError.ErrFieldCount
    else Except.ok FieldsPerRecord
  else if FieldsPerRecord = 0 then Except.ok (record.length : Int)
  else Except.ok FieldsPerRecord

/-- The index expression `record[i]`, which panics past the end. -/
def index (record : List String) (i : Nat) : Except Failure String :=
  match record[i]? with
  | some s => Except.ok s
  | none => Except.error (Failure.runtimePanic "index out of range")

/-- The pattern `v, err := strconv.Atoi(s); if err != nil { log.Fatalf(msg, err) }`. -/
def atoiOrFatal (msg : String) (s : String) : Except Failure Int :=
  match Atoi s with
  | Except.ok v => Except.ok v
  | Except.error _ => Except.error (Failure.fatal msg)

/-- The pattern `v, err := strconv.ParseFloat(s, 64); if err != nil { log.Fatalf(msg, err) }`. -/
def parseFloatOrFatal {F : Type} (L : Float64Lib F) (msg : String) (s : String) :
    Except Failure F :=
  match L.ParseFloat s with
  | some v => Except.ok v
  | none => Except.error (Failure.fatal msg)

/-- The positional parse of one row (lines 181 to 225), in the order of the source. -/
def decodeRecord {F : Type} (L : Float64Lib F) (record : List String) :
    Except Failure (Person F) := do
  let age ← atoiOrFatal "Failed to parse age" (← index record 1)
  let score1 ← atoiOrFatal "Failed to parse score1" (← index record 3)
  let score2 ← atoiOrFatal "Failed to parse score2" (← index record 4)
  let score3 ← atoiOrFatal "Failed to parse score3" (← index record 5)
  let score4 ← atoiOrFatal "Failed to parse score4" (← index record 6)
  let score5 ← atoiOrFatal "Failed to parse score5" (← index record 7)
  let balance ← parseFloatOrFatal L "Failed to parse balance" (← index record 8)
  let expenditure ← parseFloatOrFatal L "Failed to parse expenditure" (← index record 9)
  let name ← index record 0
  let email ← index record 2
  pure { Name := name, Age := toInt32 age, Email := email, Score1 := toInt32 score1,
         Score2 := toInt32 score2, Score3 := toInt32 score3, Score4 := toInt32 score4,
         Score5 := toInt32 score5, Balance := balance, Expenditure := expenditure }

/-- The read loop (lines 173 to 226) on the reader state: the records still to come and
`FieldsPerRecord`.  No record left is `io.EOF` and ends the loop. -/
def csvReadLoop {F : Type} (L : Float64Lib F) :
    List (List String) → Int → Slice (Person F) → Except Failure (Slice (Person F))
  | [], _, people => Except.ok people
  | record :: pending, FieldsPerRecord, people =>
    match fieldCountCheck FieldsPerRecord record with
    | Except.error _ => Except.error (Failure.fatal "Failed to read CSV row")
    | Except.ok FieldsPerRecord1 =>
      match decodeRecord L record with
      | Except.error e => Except.error e
      | Except.ok p => csvReadLoop L pending FieldsPerRecord1 (people.append p)

/-- The read step (lines 166 to 229): a new reader, one `Read` for the header whose
result is dropped, then the loop into `var people []Person`. -/
def csvRead {F : Type} (L : Float64Lib F) (file : List (List String)) :
    Except Failure (Slice (Person F)) :=
  match file with
  | [] => Except.error (Failure.fatal "Failed to read CSV header")
  | header :: pending =>
    match fieldCountCheck 0 header with
    | Except.error _ => Except.error (Failure.fatal "Failed to read CSV header")
    | Except.ok FieldsPerRecord => csvReadLoop L pending FieldsPerRecord Slice.nil

/-- The function `csvOperations`: the file written and the records read back.  The reader is
taken to yield the records the writer was handed, as `encoding/csv` does for fields
without carriage returns. -/
def csvOperations {F : Type} (L : Float64Lib F) (dataset : Slice (Person F)) :
    Except Failure (List (List String) × Slice (Person F)) :=
  match csvRead L (csvWrite L dataset) with
  | Except.error e => Except.error e
  | Except.ok people => Except.ok (csvWrite L dataset, people)

/-! ## Struct tags -/

/-- The field kinds of `Person`. -/
inductive Kind where
  | string
  | int32
  | float64
  deriving DecidableEq, Repr

/-- One field of a struct type as reflection shows it: its name, kind and tag, the tag
as its `key:"value"` pairs. -/
structure StructField where
  Name : String
  Kind : Kind
  Tag : List (String × String)
  deriving DecidableEq, Repr

/-- The fields of `Person` with their tags (lines 18 to 27). -/
def PersonFields : List StructField :=
  [ { Name := "Name", Kind := Kind.string, Tag := [("parquet", "name")] },
    { Name := "Age", Kind := Kind.int32, Tag := [("parquet", "age")] },
    { Name := "Email", Kind := Kind.string, Tag := [("parquet", "email,optional")] },
    { Name := "Score1", Kind := Kind.int32, Tag := [("parquet", "score1")] },
    { Name := "Score2", Kind := Kind.int32, Tag := [("parquet", "score2")] },
    { Name := "Score3", Kind := Kind.int32, Tag := [("parquet", "score3")] },
    { Name := "Score4", Kind := Kind.int32, Tag := [("parquet", "score4")] },
    { Name := "Score5", Kind := Kind.int32, Tag := [("parquet", "score5")] },
    { Name := "Balance", Kind := Kind.float64, Tag := [("parquet", "balance")] },
    { Name := "Expenditure", Kind := Kind.float64, Tag := [("parquet", "expenditure")] } ]

/-- The method `reflect.StructTag.Lookup(key)`. -/
def StructField.Lookup (f : StructField) (key : String) : Option String :=
  (f.Tag.find? (fun kv => kv.1 = key)).map (fun kv => kv.2)

/-- The part of a tag value before its first comma. -/
def tagName (v : String) : String := String.mk (v.data.takeWhile (fun c => c != ','))

/-- The comma-separated options after the name of a tag value. -/
def tagOptions (v : String) : List String :=
  ((String.mk (v.data.dropWhile (fun c => c != ','))).splitOn ",").drop 1

/-- The key `encoding/json` uses for a field: the name of its `json` tag when it has one
(`-` drops the field), the Go field name otherwise.  No field of `Person` has a
`json` tag; the validity check of tag names is left out. -/
def jsonKey (f : StructField) : Option String :=
  match f.Lookup "json" with
  | none => some f.Name
  | some tag =>
    if tag = "-" then none
    else if tagName tag = "" then some f.Name
    else some (tagName tag)

/-- One column of a parquet schema. -/
structure ParquetColumn where
  name : String
  kind : Kind
  optional : Bool
  deriving DecidableEq, Repr

/-- The column `parquet-go` derives from a field: named by the `parquet` tag, the field
name when the tag has no name; `optional` when the tag lists that option. -/
def parquetColumn (f : StructField) : ParquetColumn :=
  match f.Lookup "parquet" with
  | none => { name := f.Name, kind := f.Kind, optional := false }
  | some tag =>
    { name := if tagName tag = "" then f.Name else tagName tag
      kind := f.Kind
      optional := decide ("optional" ∈ tagOptions tag) }

/-- The call `parquet.SchemaOf(&Person{})`. -/
def SchemaOf (fields : List StructField) : List ParquetColumn := fields.map parquetColumn

/-! ## JSON adapter (`jsonOperations`, lines 236 to 280)

A JSON file is the document `json.Marshal` produces, whose text is `JDoc.render`;
documents have the shapes the encoder emits for a `[]Person`. -/

/-- A field value of a record, tagged with its Go type. -/
inductive GoValue (F : Type) where
  | string (s : String)
  | int32 (v : Int)
  | float64 (x : F)
  deriving DecidableEq, Repr

/-- The values of the fields of a record, in declaration order. -/
def Person.fieldValues {F : Type} (p : Person F) : List (GoValue F) :=
  [GoValue.string p.Name, GoValue.int32 p.Age, GoValue.string p.Email,
    GoValue.int32 p.Score1, GoValue.int32 p.Score2, GoValue.int32 p.Score3,
    GoValue.int32 p.Score4, GoValue.int32 p.Score5, GoValue.float64 p.Balance,
    GoValue.float64 p.Expenditure]

/-- A JSON scalar: a string, or a number given by its literal. -/
inductive JScalar where
  | str (s : String)
  | num (literal : String)
  deriving DecidableEq, Repr

/-- A JSON document: `null` or an array of flat objects, each an ordered list of
key and value pairs. -/
inductive JDoc where
  | null
  | array (objs : List (List (String × JScalar)))
  deriving DecidableEq, Repr

/-- The keys of each object of a document, in order. -/
def JDoc.keys : JDoc → List (List String)
  | JDoc.null => []
  | JDoc.array objs => objs.map (fun o => o.map Prod.fst)

/-- The encoding of one field value; a float without a literal makes `Marshal` fail. -/
def marshalValue {F : Type} (L : Float64Lib F) : GoValue F → Option JScalar
  | GoValue.string s => some (JScalar.str s)
  | GoValue.int32 v => some (JScalar.num (Itoa v))
  | GoValue.float64 x => (L.jsonFloat x).map JScalar.num

/-- The encoding of a struct: its fields in declaration order, each under its key. -/
def marshalFields {F : Type} (L : Float64Lib F) :
    List (StructField × GoValue F) → Option (List (String × JScalar))
  | [] => some []
  | (f, v) :: rest =>
    match jsonKey f with
    | none => marshalFields L rest
    | some k =>
      match marshalValue L v, marshalFields L rest with
      | some j, some o => some ((k, j) :: o)
      | _, _ => none

/-- The encoding of one `Person`. -/
def marshalPerson {F : Type} (L : Float64Lib F) (p : Person F) :
    Option (List (String × JScalar)) :=
  marshalFields L (PersonFields.zip p.fieldValues)

/-- The encoding of the elements of a slice, left to right. -/
def marshalElems {F : Type} (L : Float64Lib F) :
    List (Person F) → Option (List (List (String × JScalar)))
  | [] => some []
  | p :: rest =>
    match marshalPerson L p, marshalElems L rest with
    | some o, some os => some (o :: os)
    | _, _ => none

/-- The call `json.Marshal(dataset)` (line 245): a nil slice encodes as `null`, any other
slice as an array; `none` when `Marshal` returns an error. -/
def jsonMarshal {F : Type} (L : Float64Lib F) : Slice (Person F) → Option JDoc
  | Slice.nil => some JDoc.null
  | Slice.ofList elems => (marshalElems L elems).map JDoc.array

/-- The text of a scalar. -/
def JScalar.render {F : Type} (L : Float64Lib F) : JScalar → String
  | JScalar.str s => L.jsonQuote s
  | JScalar.num literal => literal

/-- The text of an object. -/
def renderObject {F : Type} (L : Float64Lib F) (o : List (String × JScalar)) : String :=
  "\x7b" ++ ",".intercalate (o.map (fun kv => L.jsonQuote kv.1 ++ ":" ++ kv.2.render L))
    ++ "\x7d"

/-- The text of a document, as `Marshal` returns it. -/
def JDoc.render {F : Type} (L : Float64Lib F) : JDoc → String
  | JDoc.null => "null"
  | JDoc.array objs => "[" ++ ",".intercalate (objs.map (renderObject L)) ++ "]"

/-- The field a key of an object addresses on decoding: the field with exactly that key,
else the first field whose key agrees up to the case of ASCII letters. -/
def findField (key : String) : Option StructField :=
  match PersonFields.find? (fun f => jsonKey f = some key) with
  | some f => some f
  | none => PersonFields.find? (fun f => (jsonKey f).map String.toLower = some key.toLower)

/-- The decoding of a number literal into an `int32` field: `ParseInt(literal, 10, 64)`
followed by the overflow check. -/
def unmarshalInt32 (literal : String) : Option Int :=
  match ParseInt literal.data with
  | Except.ok v => if isInt32 v then some v else none
  | Except.error _ => none

/-- The decoding of one value into the named field of a record; `none` is an
`UnmarshalTypeError`. -/
def Person.setField {F : Type} (L : Float64Lib F) (p : Person F) (field : String)
    (v : JScalar) : Option (Person F) :=
  match field, v with
  | "Name", JScalar.str s => some { p with Name := s }
  | "Email", JScalar.str s => some { p with Email := s }
  | "Age", JScalar.num t => (unmarshalInt32 t).map (fun x => { p with Age := x })
  | "Score1", JScalar.num t => (unmarshalInt32 t).map (fun x => { p with Score1 := x })
  | "Score2", JScalar.num t => (unmarshalInt32 t).map (fun x => { p with Score2 := x })
  | "Score3", JScalar.num t => (unmarshalInt32 t).map (fun x => { p with Score3 := x })
  | "Score4", JScalar.num t => (unmarshalInt32 t).map (fun x => { p with Score4 := x })
  | "Score5", JScalar.num t => (unmarshalInt32 t).map (fun x => { p with Score5 := x })
  | "Balance", JScalar.num t => (L.ParseFloat t).map (fun x => { p with Balance := x })
  | "Expenditure", JScalar.num t => (L.ParseFloat t).map (fun x => { p with Expenditure := x })
  | _, _ => none

/-- The decoding of the pairs of one object into a record, left to right; a key that
addresses no field is skipped. -/
def unmarshalPairs {F : Type} (L : Float64Lib F) :
    List (String × JScalar) → Person F → Option (Person F)
  | [], p => some p
  | (k, v) :: rest, p =>
    match findField k with
    | none => unmarshalPairs L rest p
    | some f =>
      match p.setField L f.Name v with
      | none => none
      | some q => unmarshalPairs L rest q

/-- The decoding of the objects of an array, each into a fresh zero `Person`. -/
def unmarshalElems {F : Type} (L : Float64Lib F) :
    List (List (String × JScalar)) → Option (List (Person F))
  | [] => some []
  | o :: rest =>
    match unmarshalPairs L o (Person.zeroValue L), unmarshalElems L rest with
    | some p, some ps => some (p :: ps)
    | _, _ => none

/-- The call `json.Unmarshal(data, &people)` (line 274) with `people` a nil slice: `null`
leaves it nil, an array gives a slice of its length, empty but not nil for `[]`. -/
def jsonUnmarshal {F : Type} (L : Float64Lib F) : JDoc → Option (Slice (Person F))
  | JDoc.null => some Slice.nil
  | JDoc.array objs => (unmarshalElems L objs).map Slice.ofList

/-- The function `jsonOperations`: the document written and the records read back. -/
def jsonOperations {F : Type} (L : Float64Lib F) (dataset : Slice (Person F)) :
    Except Failure (JDoc × Slice (Person F)) :=
  match jsonMarshal L dataset with
  | none => Except.error (Failure.fatal "Failed to marshal JSON")
  | some doc =>
    match jsonUnmarshal L doc with
    | none => Except.error (Failure.fatal "Failed to unmarshal JSON")
    | some people => Except.ok (doc, people)

/-! ## Parquet adapter (`parquetOperations`, lines 51 to 108)

A parquet file is its schema and the rows appended to the writer. -/

/-- The content of a parquet file. -/
structure ParquetFile (F : Type) where
  schema : List ParquetColumn
  rows : List (Person F)
  deriving DecidableEq, Repr

/-- The write step (lines 60 to 68): a writer over the schema of `Person`, one `Write` for
each record, then `Close`. -/
def parquetWrite {F : Type} (dataset : Slice (Person F)) : ParquetFile F :=
  { schema := SchemaOf PersonFields
    rows := dataset.toList.foldl (fun written p => written ++ [p]) [] }

/-- The read loop (lines 86 to 98): rows are appended to `var people []Person` until
`rd.Read` returns `io.EOF`. -/
def parquetRead {F : Type} (file : ParquetFile F) : Slice (Person F) :=
  file.rows.foldl (fun people p => people.append p) Slice.nil

/-- The function `parquetOperations`: the file written and the records read back. -/
def parquetOperations {F : Type} (dataset : Slice (Person F)) :
    ParquetFile F × Slice (Person F) :=
  (parquetWrite dataset, parquetRead (parquetWrite dataset))

/-- The failures that end the process: a fatal log call or a run-time panic. -/
def Failure.stopsProcess : Failure → Bool
  | Failure.fatal _ => true
  | Failure.runtimePanic _ => true
  | Failure.outOfFuel => false

/-! ## Decimal text: what a digit string denotes -/

/-- The number a digit list denotes, read from the left (Horner). -/
def digitsValue (cs : List Char) : Nat :=
  cs.foldl (fun n c => n * 10 + (digitVal c).getD 0) 0

/-- The digit part of a signed decimal text: the text without one leading sign. -/
def signedBody (cs : List Char) : List Char :=
  match cs with
  | [] => []
  | c :: rest => if c = '+' ∨ c = '-' then rest else c :: rest

/-- A decimal integer text: an optional sign followed by one or more ASCII digits. -/
def IsDecimal (s : String) : Prop :=
  signedBody s.data ≠ [] ∧ ∀ c ∈ signedBody s.data, (digitVal c).isSome = true

/-- The integer a decimal text denotes. -/
def decimalValue (s : String) : Int :=
  if s.data.head? = some '-' then -(digitsValue (signedBody s.data) : Int)
  else (digitsValue (signedBody s.data) : Int)

/-- A decimal text in minimal form: no plus sign, no leading zero (the text `0` apart),
and no negative zero. -/
def IsMinimalDecimal (s : String) : Prop :=
  IsDecimal s ∧ s.data.head? ≠ some '+' ∧
    ((signedBody s.data).head? = some '0' → s.data = ['0'])

instance (s : String) : Decidable (IsDecimal s) := by unfold IsDecimal; infer_instance

instance (s : String) : Decidable (IsMinimalDecimal s) := by
  unfold IsMinimalDecimal; infer_instance

/-! ## Lemmas on `strconv` -/

theorem formatBitsLoop_acc (fuel u : Nat) (acc : List Char) :
    formatBitsLoop fuel u acc = formatBitsLoop fuel u [] ++ acc := by
  induction fuel generalizing u acc with
  | zero => simp [formatBitsLoop]
  | succ k ih =>
    simp only [formatBitsLoop]
    split
    · simp
    · rw [ih (u / 10) (digitChar (u % 10) :: acc), ih (u / 10) [digitChar (u % 10)]]
      simp

theorem formatBitsLoop_fuel (f1 f2 u : Nat) (acc : List Char) (h1 : u < f1) (h2 : u < f2) :
    formatBitsLoop f1 u acc = formatBitsLoop f2 u acc := by
  induction f1 generalizing f2 u acc with
  | zero => omega
  | succ k ih =>
    cases f2 with
    | zero => omega
    | succ m =>
      simp only [formatBitsLoop]
      split
      · rfl
      · exact ih m (u / 10) _ (by omega) (by omega)

theorem formatUint_lt (u : Nat) (h : u < 10) : formatUint u = [digitChar u] := by
  simp [formatUint, formatBitsLoop, h]

theorem formatUint_ge (u : Nat) (h : 10 ≤ u) :
    formatUint u = formatUint (u / 10) ++ [digitChar (u % 10)] := by
  have hn : ¬ u < 10 := by omega
  unfold formatUint
  rw [formatBitsLoop, if_neg hn, formatBitsLoop_acc]
  rw [formatBitsLoop_fuel u (u / 10 + 1) (u / 10) [] (by omega) (by omega)]

theorem digitVal_digitChar (d : Nat) (h : d < 10) : digitVal (digitChar d) = some d := by
  interval_cases d <;> rfl

theorem digitChar_ne_zero (d : Nat) (h : d < 10) (h0 : d ≠ 0) : digitChar d ≠ '0' := by
  interval_cases d <;> first | omega | decide

theorem formatUint_digits (u : Nat) : ∀ c ∈ formatUint u, (digitVal c).isSome = true := by
  induction u using Nat.strong_induction_on with
  | _ u ih =>
    by_cases h : u < 10
    · rw [formatUint_lt u h]
      intro c hc
      simp only [List.mem_singleton] at hc
      rw [hc, digitVal_digitChar u h]; rfl
    · rw [formatUint_ge u (by omega)]
      intro c hc
      rcases List.mem_append.mp hc with hc | hc
      · exact ih (u / 10) (by omega) c hc
      · simp only [List.mem_singleton] at hc
        rw [hc, digitVal_digitChar _ (Nat.mod_lt _ (by norm_num))]; rfl

theorem formatUint_ne_nil (u : Nat) : formatUint u ≠ [] := by
  by_cases h : u < 10
  · rw [formatUint_lt u h]; simp
  · rw [formatUint_ge u (by omega)]; simp

theorem digitsValue_append (xs : List Char) (c : Char) :
    digitsValue (xs ++ [c]) = digitsValue xs * 10 + (digitVal c).getD 0 := by
  simp [digitsValue, List.foldl_append]

theorem digitsValue_formatUint (u : Nat) : digitsValue (formatUint u) = u := by
  induction u using Nat.strong_induction_on with
  | _ u ih =>
    by_cases h : u < 10
    · rw [formatUint_lt u h]
      simp [digitsValue, digitVal_digitChar u h]
    · rw [formatUint_ge u (by omega), digitsValue_append, ih (u / 10) (by omega),
        digitVal_digitChar _ (Nat.mod_lt _ (by norm_num))]
      simp only [Option.getD_some]
      omega

theorem formatUint_injective (u v : Nat) (h : formatUint u = formatUint v) : u = v := by
  rw [← digitsValue_formatUint u, ← digitsValue_formatUint v, h]

theorem foldl_digit_le (cs : List Char) (n : Nat) :
    n ≤ cs.foldl (fun n c => n * 10 + (digitVal c).getD 0) n := by
  induction cs generalizing n with
  | nil => simp
  | cons c cs ih =>
    simp only [List.foldl_cons]
    exact le_trans (by omega) (ih _)

theorem parseUintLoop_eq (cs : List Char) (n : Nat)
    (hd : ∀ c ∈ cs, (digitVal c).isSome = true)
    (hv : cs.foldl (fun n c => n * 10 + (digitVal c).getD 0) n < 2 ^ 64) :
    parseUintLoop n cs = Except.ok (cs.foldl (fun n c => n * 10 + (digitVal c).getD 0) n) := by
  induction cs generalizing n with
  | nil => simp [parseUintLoop]
  | cons c cs ih =>
    have hc := hd c (List.mem_cons_self c cs)
    obtain ⟨d, hcd⟩ := Option.isSome_iff_exists.mp hc
    simp only [List.foldl_cons, hcd, Option.getD_some] at hv ⊢
    have hle := foldl_digit_le cs (n * 10 + d)
    have hlt : ¬ (n * 10 + d ≥ 2 ^ 64) := by omega
    simp only [parseUintLoop, hcd, if_neg hlt]
    exact ih (n * 10 + d) (fun c hc => hd c (List.mem_cons_of_mem _ hc)) hv

theorem ParseUint_eq (cs : List Char) (hne : cs ≠ [])
    (hd : ∀ c ∈ cs, (digitVal c).isSome = true) (hv : digitsValue cs < 2 ^ 64) :
    ParseUint cs = Except.ok (digitsValue cs) := by
  cases cs with
  | nil => exact absurd rfl hne
  | cons c cs => exact parseUintLoop_eq (c :: cs) 0 hd hv

theorem digit_ne_sign (c : Char) (h : (digitVal c).isSome = true) : ¬ (c = '+' ∨ c = '-') := by
  intro hs
  rcases hs with hs | hs <;> · rw [hs] at h; exact absurd h (by decide)

/-- A decimal text whose value fits a 64-bit `int` is parsed by `Atoi` to that value. -/
theorem Atoi_of_decimal (s : String) (hdec : IsDecimal s) (hv : isInt64 (decimalValue s)) :
    Atoi s = Except.ok (decimalValue s) := by
  obtain ⟨hne, hd⟩ := hdec
  unfold Atoi ParseInt
  unfold decimalValue isInt64 at hv
  unfold decimalValue
  cases hs : s.data with
  | nil => rw [hs] at hne; exact absurd rfl hne
  | cons c rest =>
    rw [hs] at hne hd hv
    simp only [signedBody, List.head?_cons, Option.some.injEq] at hne hd hv ⊢
    have hv64 : digitsValue (if c = '+' ∨ c = '-' then rest else c :: rest) < 2 ^ 64 := by
      split at hv <;> omega
    rw [ParseUint_eq _ hne hd hv64]
    by_cases hneg : c = '-'
    · simp only [hneg, decide_True, if_true] at hv ⊢
      simp only [or_true, if_true] at hv ⊢
      have h1 : digitsValue rest ≤ 9223372036854775808 := by omega
      simp [h1]
    · simp only [hneg, decide_False, if_false] at hv ⊢
      simp only [or_false] at hv ⊢
      have h1 : digitsValue (if c = '+' then rest else c :: rest) < 9223372036854775808 := by
        omega
      simp [h1]

theorem formatUint_head_zero (u : Nat) (h : (formatUint u).head? = some '0') : u = 0 := by
  induction u using Nat.strong_induction_on with
  | _ u ih =>
    by_cases hu : u < 10
    · rw [formatUint_lt u hu] at h
      simp only [List.head?_cons, Option.some.injEq] at h
      by_contra h0
      exact digitChar_ne_zero u hu h0 h
    · rw [formatUint_ge u (by omega)] at h
      have hne := formatUint_ne_nil (u / 10)
      rw [List.head?_append_of_ne_nil _ hne] at h
      have := ih (u / 10) (by omega) h
      omega

theorem formatUint_zero_iff (u : Nat) (h : formatUint u = ['0']) : u = 0 :=
  formatUint_head_zero u (by rw [h]; rfl)

theorem signedBody_formatUint (u : Nat) : signedBody (formatUint u) = formatUint u := by
  cases h : formatUint u with
  | nil => rfl
  | cons c rest =>
    have hc : (digitVal c).isSome = true := formatUint_digits u c (by rw [h]; simp)
    simp only [signedBody, if_neg (digit_ne_sign c hc)]

theorem head_formatUint_ne (u : Nat) (c : Char) (hc : c = '+' ∨ c = '-') :
    (formatUint u).head? ≠ some c := by
  cases h : formatUint u with
  | nil => simp
  | cons d rest =>
    have hd : (digitVal d).isSome = true := formatUint_digits u d (by rw [h]; simp)
    simp only [List.head?_cons, ne_eq, Option.some.injEq]
    intro hdc
    exact digit_ne_sign d hd (hdc ▸ hc)

theorem Itoa_data_neg (i : Int) (h : i < 0) : (Itoa i).data = '-' :: formatUint (-i).toNat := by
  simp [Itoa, h]

theorem Itoa_data_nonneg (i : Int) (h : 0 ≤ i) : (Itoa i).data = formatUint i.toNat := by
  simp [Itoa, not_lt.mpr h]

theorem Itoa_isDecimal (i : Int) : IsDecimal (Itoa i) := by
  unfold IsDecimal
  by_cases h : i < 0
  · rw [Itoa_data_neg i h]
    simp only [signedBody, or_true, if_true]
    exact ⟨formatUint_ne_nil _, formatUint_digits _⟩
  · rw [Itoa_data_nonneg i (not_lt.mp h), signedBody_formatUint]
    exact ⟨formatUint_ne_nil _, formatUint_digits _⟩

theorem decimalValue_Itoa (i : Int) : decimalValue (Itoa i) = i := by
  unfold decimalValue
  by_cases h : i < 0
  · rw [Itoa_data_neg i h]
    simp only [signedBody, or_true, if_true, List.head?_cons, digitsValue_formatUint]
    omega
  · rw [Itoa_data_nonneg i (not_lt.mp h), signedBody_formatUint, digitsValue_formatUint,
      if_neg (head_formatUint_ne _ '-' (Or.inr rfl))]
    omega

theorem Itoa_injective (i j : Int) (h : Itoa i = Itoa j) : i = j := by
  rw [← decimalValue_Itoa i, ← decimalValue_Itoa j, h]

theorem Atoi_Itoa (i : Int) (h : isInt64 i) : Atoi (Itoa i) = Except.ok i := by
  have := Atoi_of_decimal (Itoa i) (Itoa_isDecimal i) (by rw [decimalValue_Itoa]; exact h)
  rw [decimalValue_Itoa] at this
  exact this

theorem Itoa_isMinimal (i : Int) : IsMinimalDecimal (Itoa i) := by
  refine ⟨Itoa_isDecimal i, ?_, ?_⟩
  · by_cases h : i < 0
    · rw [Itoa_data_neg i h]; simp
    · rw [Itoa_data_nonneg i (not_lt.mp h)]
      exact head_formatUint_ne _ '+' (Or.inl rfl)
  · by_cases h : i < 0
    · rw [Itoa_data_neg i h]
      simp only [signedBody, or_true, if_true]
      intro h0
      have := formatUint_head_zero _ h0
      omega
    · rw [Itoa_data_nonneg i (not_lt.mp h), signedBody_formatUint]
      intro h0
      have hz := formatUint_head_zero _ h0
      rw [hz]
      rfl

theorem digitChar_eq (d : Nat) (h : d < 10) : digitChar d = Nat.digitChar d := by
  interval_cases d <;> rfl

theorem formatBitsLoop_eq_toDigitsCore (fuel u : Nat) (acc : List Char) :
    formatBitsLoop fuel u acc = Nat.toDigitsCore 10 fuel u acc := by
  induction fuel generalizing u acc with
  | zero => rfl
  | succ k ih =>
    simp only [formatBitsLoop, Nat.toDigitsCore]
    by_cases h : u < 10
    · have h0 : u / 10 = 0 := by omega
      have hm : u % 10 = u := by omega
      simp [h, h0, hm, digitChar_eq u h]
    · have h0 : ¬ (u / 10 = 0) := by omega
      simp only [if_neg h, if_neg h0]
      rw [ih, digitChar_eq _ (Nat.mod_lt _ (by norm_num))]

/-- On a value that is not negative `Itoa` prints what `Nat.repr` prints. -/
theorem Itoa_eq_repr (i : Int) (h : 0 ≤ i) : Itoa i = Nat.repr i.toNat := by
  simp only [Itoa, not_lt.mpr h, if_false, Nat.repr, Nat.toDigits, formatUint,
    formatBitsLoop_eq_toDigitsCore, List.asString]

/-! ## Lemmas on the generator -/

theorem take_succ_set {α : Type} (ds : List α) (i : Nat) (p : α) (h : i < ds.length) :
    (ds.set i p).take (i + 1) = ds.take i ++ [p] := by
  induction ds generalizing i with
  | nil => simp at h
  | cons d ds ih =>
    cases i with
    | zero => simp
    | succ j =>
      simp only [List.set_cons_succ, List.take_succ_cons, List.cons_append, List.cons.injEq,
        true_and]
      exact ih j (by simpa using h)

theorem generateLoop_spec {F : Type} (L : Float64Lib F) (n : Nat) :
    ∀ (k i : Nat) (ds : List (Person F)), ds.length = n → i ≤ n → n - i < k →
      generateLoop L (n : Int) k (i : Int) ds =
        Except.ok (ds.take i ++ (List.range' i (n - i)).map (fun (j : Nat) => newPerson L (j : Int))) := by
  intro k
  induction k with
  | zero => intro i ds _ _ hk; omega
  | succ k ih =>
    intro i ds hlen hi hk
    by_cases hlt : i < n
    · have hlt2 : (i : Int) < (n : Int) := by exact_mod_cast hlt
      have hset : setIndex ds (i : Int) (newPerson L (i : Int)) =
          Except.ok (ds.set i (newPerson L (i : Int))) := by
        unfold setIndex
        rw [if_pos]
        · simp
        · refine ⟨by omega, ?_⟩
          simp only [Int.toNat_ofNat]
          omega
      have hstep := ih (i + 1) (ds.set i (newPerson L (i : Int))) (by simpa using hlen)
        (by omega) (by omega)
      simp only [generateLoop, if_pos hlt2, hset]
      rw [show ((i : Int) + 1) = ((i + 1 : Nat) : Int) by push_cast; rfl, hstep,
        take_succ_set ds i _ (by omega)]
      have hr : List.range' i (n - i) = i :: List.range' (i + 1) (n - (i + 1)) := by
        rw [show n - i = (n - (i + 1)) + 1 by omega, List.range'_succ]
      rw [hr]
      simp
    · have hin : i = n := by omega
      have hge : ¬ ((i : Int) < (n : Int)) := by omega
      simp only [generateLoop, if_neg hge]
      subst hin
      simp [← hlen]

/-- The closed form of the generator: record `j` is the composite literal at index `j`. -/
theorem generateDataset_eq {F : Type} (L : Float64Lib F) (n : Int) (h : 0 ≤ n) :
    generateDataset L n =
      Except.ok (Slice.ofList ((List.range n.toNat).map (fun (j : Nat) => newPerson L (j : Int)))) := by
  obtain ⟨m, rfl⟩ := Int.eq_ofNat_of_zero_le h
  have hspec := generateLoop_spec L m (m + 1) 0 (List.replicate m (Person.zeroValue L))
    (by simp) (by omega) (by omega)
  have hneg : ¬ ((m : Int) < 0) := by omega
  unfold generateDataset
  simp only [if_neg hneg, Int.toNat_ofNat]
  rw [show (0 : Int) = ((0 : Nat) : Int) by rfl, hspec]
  simp [List.range_eq_range']

theorem toInt32_of_isInt32 (x : Int) (h : isInt32 x) : toInt32 x = x := by
  unfold isInt32 at h
  unfold toInt32
  omega

theorem toInt32_isInt32 (x : Int) : isInt32 (toInt32 x) := by
  unfold isInt32 toInt32
  omega

theorem toInt32_emod (x : Int) : toInt32 x % 2 ^ 32 = x % 2 ^ 32 := by
  unfold toInt32
  omega

theorem generateDataset_get {F : Type} (L : Float64Lib F) (n i : Int) (h0 : 0 ≤ i)
    (hi : i < n) :
    ∃ ds, generateDataset L n = Except.ok ds ∧ ds.toList[i.toNat]? = some (newPerson L i) := by
  refine ⟨_, generateDataset_eq L n (by omega), ?_⟩
  have hlt : i.toNat < n.toNat := by omega
  simp only [Slice.toList, List.getElem?_map, List.getElem?_range hlt, Option.map_some']
  rw [Int.toNat_of_nonneg h0]

theorem string_append_left_cancel (a b c : String) (h : a ++ b = a ++ c) : b = c := by
  have hd := congrArg String.data h
  simp only [String.data_append] at hd
  exact String.ext (List.append_cancel_left hd)

theorem string_append_right_cancel (a b c : String) (h : a ++ c = b ++ c) : a = b := by
  have hd := congrArg String.data h
  simp only [String.data_append] at hd
  exact String.ext (List.append_cancel_right hd)

theorem newPerson_age {F : Type} (L : Float64Lib F) (i : Int) (h0 : 0 ≤ i) :
    (newPerson L i).Age = i % 100 := by
  have ht : Int.tmod i 100 = i % 100 := Int.tmod_eq_emod h0 (by norm_num)
  show toInt32 (Int.tmod i 100) = i % 100
  rw [ht]
  exact toInt32_of_isInt32 _ (by unfold isInt32; omega)

theorem newPerson_score (i : Int) (h0 : 0 ≤ i) :
    toInt32 (Int.tmod i 1000) = i % 1000 := by
  have ht : Int.tmod i 1000 = i % 1000 := Int.tmod_eq_emod h0 (by norm_num)
  rw [ht]
  exact toInt32_of_isInt32 _ (by unfold isInt32; omega)

/-! ## The claims on the generator -/

/-- C1: for every `n ≥ 0`, `generateDataset(n)` returns, and the slice it returns has exactly
`n` records; for `n = 0` it is the empty sequence. -/
theorem generateDataset_length {F : Type} (L : Float64Lib F) (n : Int) (h : 0 ≤ n) :
    ∃ ds, generateDataset L n = Except.ok ds ∧ (ds.len : Int) = n ∧
      (n = 0 → ds.toList = []) := by
  refine ⟨_, generateDataset_eq L n h, ?_, ?_⟩
  · simp only [Slice.len, Slice.toList, List.length_map, List.length_range]
    omega
  · intro hn
    subst hn
    rfl

theorem generateDataset_length_witness :
    ∃ ds, generateDataset halves 3 = Except.ok ds ∧ (ds.len : Int) = 3 ∧
      ((3 : Int) = 0 → ds.toList = []) :=
  generateDataset_length halves 3 (by decide)

/-- C2: for `0 ≤ i < n`, record `i` of `generateDataset(n)` has `Age = i mod 100` and the five
scores equal to `i mod 1000`: the conversion to `int32` changes nothing, `Age` lies in
`0..99` and every score in `0..999`. -/
theorem generateDataset_age_scores {F : Type} (L : Float64Lib F) (n i : Int) (h0 : 0 ≤ i)
    (hi : i < n) :
    ∃ ds p, generateDataset L n = Except.ok ds ∧ ds.toList[i.toNat]? = some p ∧
      p.Age = i % 100 ∧ 0 ≤ p.Age ∧ p.Age ≤ 99 ∧
      ∀ s ∈ [p.Score1, p.Score2, p.Score3, p.Score4, p.Score5],
        s = i % 1000 ∧ 0 ≤ s ∧ s ≤ 999 := by
  obtain ⟨ds, hds, hget⟩ := generateDataset_get L n i h0 hi
  refine ⟨ds, newPerson L i, hds, hget, newPerson_age L i h0, ?_, ?_, ?_⟩
  · rw [newPerson_age L i h0]; omega
  · rw [newPerson_age L i h0]; omega
  · intro s hs
    have hsc : s = toInt32 (Int.tmod i 1000) := by
      simp only [newPerson, List.mem_cons, List.mem_singleton, or_self, List.not_mem_nil,
        or_false] at hs
      exact hs
    rw [hsc, newPerson_score i h0]
    omega

theorem generateDataset_age_scores_witness :
    ∃ ds p, generateDataset halves 2500 = Except.ok ds ∧
      ds.toList[(1234 : Int).toNat]? = some p ∧
      p.Age = 1234 % 100 ∧ 0 ≤ p.Age ∧ p.Age ≤ 99 ∧
      ∀ s ∈ [p.Score1, p.Score2, p.Score3, p.Score4, p.Score5],
        s = 1234 % 1000 ∧ 0 ≤ s ∧ s ≤ 999 :=
  generateDataset_age_scores halves 2500 1234 (by decide) (by decide)

/-- C3: for `0 ≤ i < n`, record `i` of `generateDataset(n)` has `Name` equal to `Person_`
followed by the decimal text of `i`, and `Email` equal to `person`, that text, then
`@example.com`; the text is the minimal decimal numeral denoting `i` (the one `Nat.repr`
prints), and the `Email` is not empty. -/
theorem generateDataset_name_email {F : Type} (L : Float64Lib F) (n i : Int) (h0 : 0 ≤ i)
    (hi : i < n) :
    ∃ ds p, generateDataset L n = Except.ok ds ∧ ds.toList[i.toNat]? = some p ∧
      p.Name = "Person_" ++ Itoa i ∧ p.Email = "person" ++ Itoa i ++ "@example.com" ∧
      IsMinimalDecimal (Itoa i) ∧ decimalValue (Itoa i) = i ∧ Itoa i = Nat.repr i.toNat ∧
      p.Email ≠ "" := by
  obtain ⟨ds, hds, hget⟩ := generateDataset_get L n i h0 hi
  refine ⟨ds, newPerson L i, hds, hget, rfl, rfl, Itoa_isMinimal i, decimalValue_Itoa i,
    Itoa_eq_repr i h0, ?_⟩
  intro he
  have hd := congrArg (fun s => s.data.length) he
  simp [newPerson, String.data_append] at hd

theorem generateDataset_name_email_witness :
    ∃ ds p, generateDataset halves 50 = Except.ok ds ∧ ds.toList[(42 : Int).toNat]? = some p ∧
      p.Name = "Person_" ++ Itoa 42 ∧ p.Email = "person" ++ Itoa 42 ++ "@example.com" ∧
      IsMinimalDecimal (Itoa 42) ∧ decimalValue (Itoa 42) = 42 ∧
      Itoa 42 = Nat.repr (42 : Int).toNat ∧ p.Email ≠ "" :=
  generateDataset_name_email halves 50 42 (by decide) (by decide)

/-- C9: for `0 ≤ i < j < n`, records `i` and `j` of `generateDataset(n)` differ in `Name` and
in `Email`. -/
theorem generateDataset_names_unique {F : Type} (L : Float64Lib F) (n i j : Int) (h0 : 0 ≤ i)
    (hij : i < j) (hj : j < n) :
    ∃ ds p q, generateDataset L n = Except.ok ds ∧ ds.toList[i.toNat]? = some p ∧
      ds.toList[j.toNat]? = some q ∧ p.Name ≠ q.Name ∧ p.Email ≠ q.Email := by
  obtain ⟨ds, hds, hgi⟩ := generateDataset_get L n i h0 (by omega)
  obtain ⟨ds2, hds2, hgj⟩ := generateDataset_get L n j (by omega) hj
  have hsame : ds2 = ds := by
    rw [hds] at hds2
    injection hds2 with h
    exact h.symm
  subst hsame
  refine ⟨ds2, newPerson L i, newPerson L j, hds, hgi, hgj, ?_, ?_⟩
  · intro hname
    have := Itoa_injective i j (string_append_left_cancel _ _ _ hname)
    omega
  · intro hemail
    have h1 : "person" ++ Itoa i ++ "@example.com" = "person" ++ Itoa j ++ "@example.com" :=
      hemail
    have h2 := string_append_right_cancel _ _ _ h1
    have := Itoa_injective i j (string_append_left_cancel _ _ _ h2)
    omega

theorem generateDataset_names_unique_witness :
    ∃ ds p q, generateDataset halves 1200 = Except.ok ds ∧
      ds.toList[(5 : Int).toNat]? = some p ∧ ds.toList[(1005 : Int).toNat]? = some q ∧
      p.Name ≠ q.Name ∧ p.Email ≠ q.Email :=
  generateDataset_names_unique halves 1200 5 1005 (by decide) (by decide) (by decide)

/-! ## Lemmas on the CSV adapter -/

theorem index_error_stops (r : List String) (i : Nat) (e : Failure)
    (h : index r i = Except.error e) : e.stopsProcess = true := by
  unfold index at h
  split at h
  · cases h
  · cases h; rfl

theorem index_ok_length (r : List String) (i : Nat) (v : String)
    (h : index r i = Except.ok v) : i < r.length := by
  unfold index at h
  split at h
  · rename_i s hs
    exact (List.getElem?_eq_some_iff.mp hs).1
  · cases h

theorem atoiOrFatal_error_stops (msg s : String) (e : Failure)
    (h : atoiOrFatal msg s = Except.error e) : e.stopsProcess = true := by
  unfold atoiOrFatal at h
  split at h
  · cases h
  · cases h; rfl

theorem parseFloatOrFatal_error_stops {F : Type} (L : Float64Lib F) (msg s : String)
    (e : Failure) (h : parseFloatOrFatal L msg s = Except.error e) :
    e.stopsProcess = true := by
  unfold parseFloatOrFatal at h
  split at h
  · cases h
  · cases h; rfl

theorem bind_error_pred {α β : Type} (P : Failure → Prop) (x : Except Failure α)
    (f : α → Except Failure β) (hx : ∀ e, x = Except.error e → P e)
    (hf : ∀ a e, f a = Except.error e → P e) (e : Failure)
    (h : (x >>= f) = Except.error e) : P e := by
  cases x with
  | error e1 =>
    have : e1 = e := by simpa [bind, Except.bind] using h
    exact this ▸ hx e1 rfl
  | ok a => exact hf a e h

theorem bind_error_stops {α β : Type} (x : Except Failure α) (f : α → Except Failure β)
    (hx : ∀ e, x = Except.error e → e.stopsProcess = true)
    (hf : ∀ a e, f a = Except.error e → e.stopsProcess = true) (e : Failure)
    (h : (x >>= f) = Except.error e) : e.stopsProcess = true :=
  bind_error_pred (fun e => e.stopsProcess = true) x f hx hf e h

theorem atoiOrFatal_error_fatal (msg s : String) (e : Failure)
    (h : atoiOrFatal msg s = Except.error e) : ∃ m, e = Failure.fatal m := by
  unfold atoiOrFatal at h
  split at h
  · cases h
  · cases h; exact ⟨_, rfl⟩

theorem parseFloatOrFatal_error_fatal {F : Type} (L : Float64Lib F) (msg s : String)
    (e : Failure) (h : parseFloatOrFatal L msg s = Except.error e) :
    ∃ m, e = Failure.fatal m := by
  unfold parseFloatOrFatal at h
  split at h
  · cases h
  · cases h; exact ⟨_, rfl⟩

theorem decodeRecord_ten_error_fatal {F : Type} (L : Float64Lib F)
    (c0 c1 c2 c3 c4 c5 c6 c7 c8 c9 : String) (e : Failure)
    (h : decodeRecord L [c0, c1, c2, c3, c4, c5, c6, c7, c8, c9] = Except.error e) :
    ∃ m, e = Failure.fatal m := by
  unfold decodeRecord at h
  revert h
  refine bind_error_pred (fun e => ∃ m, e = Failure.fatal m) _ _ (fun e h => by simp [index] at h) (fun _ => ?_) e
  refine bind_error_pred (fun e => ∃ m, e = Failure.fatal m) _ _ (atoiOrFatal_error_fatal _ _) (fun _ => ?_)
  refine bind_error_pred (fun e => ∃ m, e = Failure.fatal m) _ _ (fun e h => by simp [index] at h) (fun _ => ?_)
  refine bind_error_pred (fun e => ∃ m, e = Failure.fatal m) _ _ (atoiOrFatal_error_fatal _ _) (fun _ => ?_)
  refine bind_error_pred (fun e => ∃ m, e = Failure.fatal m) _ _ (fun e h => by simp [index] at h) (fun _ => ?_)
  refine bind_error_pred (fun e => ∃ m, e = Failure.fatal m) _ _ (atoiOrFatal_error_fatal _ _) (fun _ => ?_)
  refine bind_error_pred (fun e => ∃ m, e = Failure.fatal m) _ _ (fun e h => by simp [index] at h) (fun _ => ?_)
  refine bind_error_pred (fun e => ∃ m, e = Failure.fatal m) _ _ (atoiOrFatal_error_fatal _ _) (fun _ => ?_)
  refine bind_error_pred (fun e => ∃ m, e = Failure.fatal m) _ _ (fun e h => by simp [index] at h) (fun _ => ?_)
  refine bind_error_pred (fun e => ∃ m, e = Failure.fatal m) _ _ (atoiOrFatal_error_fatal _ _) (fun _ => ?_)
  refine bind_error_pred (fun e => ∃ m, e = Failure.fatal m) _ _ (fun e h => by simp [index] at h) (fun _ => ?_)
  refine bind_error_pred (fun e => ∃ m, e = Failure.fatal m) _ _ (atoiOrFatal_error_fatal _ _) (fun _ => ?_)
  refine bind_error_pred (fun e => ∃ m, e = Failure.fatal m) _ _ (fun e h => by simp [index] at h) (fun _ => ?_)
  refine bind_error_pred (fun e => ∃ m, e = Failure.fatal m) _ _ (parseFloatOrFatal_error_fatal L _ _) (fun _ => ?_)
  refine bind_error_pred (fun e => ∃ m, e = Failure.fatal m) _ _ (fun e h => by simp [index] at h) (fun _ => ?_)
  refine bind_error_pred (fun e => ∃ m, e = Failure.fatal m) _ _ (parseFloatOrFatal_error_fatal L _ _) (fun _ => ?_)
  refine bind_error_pred (fun e => ∃ m, e = Failure.fatal m) _ _ (fun e h => by simp [index] at h) (fun _ => ?_)
  refine bind_error_pred (fun e => ∃ m, e = Failure.fatal m) _ _ (fun e h => by simp [index] at h) (fun _ => ?_)
  intro e h
  cases h

theorem bind_ok_inv {α β : Type} (x : Except Failure α) (f : α → Except Failure β) (b : β)
    (h : (x >>= f) = Except.ok b) : ∃ a, x = Except.ok a ∧ f a = Except.ok b := by
  cases x with
  | error e1 => simp [bind, Except.bind] at h
  | ok a => exact ⟨a, rfl, h⟩

theorem decodeRecord_error_stops {F : Type} (L : Float64Lib F) (r : List String) (e : Failure)
    (h : decodeRecord L r = Except.error e) : e.stopsProcess = true := by
  unfold decodeRecord at h
  revert h
  refine bind_error_stops _ _ (index_error_stops _ _) (fun _ => ?_) e
  refine bind_error_stops _ _ (atoiOrFatal_error_stops _ _) (fun _ => ?_)
  refine bind_error_stops _ _ (index_error_stops _ _) (fun _ => ?_)
  refine bind_error_stops _ _ (atoiOrFatal_error_stops _ _) (fun _ => ?_)
  refine bind_error_stops _ _ (index_error_stops _ _) (fun _ => ?_)
  refine bind_error_stops _ _ (atoiOrFatal_error_stops _ _) (fun _ => ?_)
  refine bind_error_stops _ _ (index_error_stops _ _) (fun _ => ?_)
  refine bind_error_stops _ _ (atoiOrFatal_error_stops _ _) (fun _ => ?_)
  refine bind_error_stops _ _ (index_error_stops _ _) (fun _ => ?_)
  refine bind_error_stops _ _ (atoiOrFatal_error_stops _ _) (fun _ => ?_)
  refine bind_error_stops _ _ (index_error_stops _ _) (fun _ => ?_)
  refine bind_error_stops _ _ (atoiOrFatal_error_stops _ _) (fun _ => ?_)
  refine bind_error_stops _ _ (index_error_stops _ _) (fun _ => ?_)
  refine bind_error_stops _ _ (parseFloatOrFatal_error_stops L _ _) (fun _ => ?_)
  refine bind_error_stops _ _ (index_error_stops _ _) (fun _ => ?_)
  refine bind_error_stops _ _ (parseFloatOrFatal_error_stops L _ _) (fun _ => ?_)
  refine bind_error_stops _ _ (index_error_stops _ _) (fun _ => ?_)
  refine bind_error_stops _ _ (index_error_stops _ _) (fun _ => ?_)
  intro e h
  cases h

theorem decodeRecord_ok_length {F : Type} (L : Float64Lib F) (r : List String) (p : Person F)
    (h : decodeRecord L r = Except.ok p) : 10 ≤ r.length := by
  unfold decodeRecord at h
  obtain ⟨_, -, h⟩ := bind_ok_inv _ _ _ h
  obtain ⟨_, -, h⟩ := bind_ok_inv _ _ _ h
  obtain ⟨_, -, h⟩ := bind_ok_inv _ _ _ h
  obtain ⟨_, -, h⟩ := bind_ok_inv _ _ _ h
  obtain ⟨_, -, h⟩ := bind_ok_inv _ _ _ h
  obtain ⟨_, -, h⟩ := bind_ok_inv _ _ _ h
  obtain ⟨_, -, h⟩ := bind_ok_inv _ _ _ h
  obtain ⟨_, -, h⟩ := bind_ok_inv _ _ _ h
  obtain ⟨_, -, h⟩ := bind_ok_inv _ _ _ h
  obtain ⟨_, -, h⟩ := bind_ok_inv _ _ _ h
  obtain ⟨_, -, h⟩ := bind_ok_inv _ _ _ h
  obtain ⟨_, -, h⟩ := bind_ok_inv _ _ _ h
  obtain ⟨_, -, h⟩ := bind_ok_inv _ _ _ h
  obtain ⟨_, -, h⟩ := bind_ok_inv _ _ _ h
  obtain ⟨_, h9, -⟩ := bind_ok_inv _ _ _ h
  exact index_ok_length r 9 _ h9

theorem decodeRecord_ten {F : Type} (L : Float64Lib F) (c0 c1 c2 c3 c4 c5 c6 c7 c8 c9 : String)
    (a s1 s2 s3 s4 s5 : Int) (b e : F)
    (h1 : Atoi c1 = Except.ok a) (h3 : Atoi c3 = Except.ok s1) (h4 : Atoi c4 = Except.ok s2)
    (h5 : Atoi c5 = Except.ok s3) (h6 : Atoi c6 = Except.ok s4) (h7 : Atoi c7 = Except.ok s5)
    (h8 : L.ParseFloat c8 = some b) (h9 : L.ParseFloat c9 = some e) :
    decodeRecord L [c0, c1, c2, c3, c4, c5, c6, c7, c8, c9] =
      Except.ok { Name := c0, Age := toInt32 a, Email := c2, Score1 := toInt32 s1,
                  Score2 := toInt32 s2, Score3 := toInt32 s3, Score4 := toInt32 s4,
                  Score5 := toInt32 s5, Balance := b, Expenditure := e } := by
  simp [decodeRecord, index, atoiOrFatal, parseFloatOrFatal, h1, h3, h4, h5, h6, h7, h8, h9,
    bind, Except.bind, pure, Except.pure]

theorem csvReadLoop_short_row {F : Type} (L : Float64Lib F) (pending : List (List String)) :
    ∀ (fpr : Int) (people : Slice (Person F)), (∃ r ∈ pending, r.length < 10) →
      ∃ e, csvReadLoop L pending fpr people = Except.error e ∧ e.stopsProcess = true := by
  induction pending with
  | nil => intro _ _ h; simp at h
  | cons record rest ih =>
    intro fpr people h
    simp only [csvReadLoop]
    cases hc : fieldCountCheck fpr record with
    | error _ => exact ⟨_, rfl, rfl⟩
    | ok fpr1 =>
      cases hd : decodeRecord L record with
      | error e => exact ⟨e, rfl, decodeRecord_error_stops L record e hd⟩
      | ok p =>
        have hlen := decodeRecord_ok_length L record p hd
        obtain ⟨r, hr, hshort⟩ := h
        rcases List.mem_cons.mp hr with hr | hr
        · subst hr; omega
        · exact ih fpr1 (people.append p) ⟨r, hr, hshort⟩

theorem csvReadLoop_full_header {F : Type} (L : Float64Lib F) (pending : List (List String)) :
    ∀ (people : Slice (Person F)) (e : Failure),
      csvReadLoop L pending 10 people = Except.error e → ∃ msg, e = Failure.fatal msg := by
  induction pending with
  | nil => intro _ _ h; simp [csvReadLoop] at h
  | cons record rest ih =>
    intro people e h
    simp only [csvReadLoop] at h
    by_cases hlen : record.length = 10
    · have hc : fieldCountCheck 10 record = Except.ok 10 := by
        simp [fieldCountCheck, hlen]
      rw [hc] at h
      simp only at h
      obtain ⟨c0, c1, c2, c3, c4, c5, c6, c7, c8, c9, rfl⟩ :
          ∃ c0 c1 c2 c3 c4 c5 c6 c7 c8 c9, record = [c0, c1, c2, c3, c4, c5, c6, c7, c8, c9] := by
        match record, hlen with
        | [c0, c1, c2, c3, c4, c5, c6, c7, c8, c9], _ =>
          exact ⟨c0, c1, c2, c3, c4, c5, c6, c7, c8, c9, rfl⟩
      cases hd : decodeRecord L [c0, c1, c2, c3, c4, c5, c6, c7, c8, c9] with
      | ok p =>
        rw [hd] at h
        exact ih _ e h
      | error e1 =>
        rw [hd] at h
        have he : e1 = e := by simpa using h
        subst he
        exact decodeRecord_ten_error_fatal L c0 c1 c2 c3 c4 c5 c6 c7 c8 c9 e1 hd
    · have hc : fieldCountCheck 10 record = Except.error ReadError.ErrFieldCount := by
        have : ¬ ((record.length : Int) = 10) := by omega
        simp [fieldCountCheck, this]
      rw [hc] at h
      simp only at h
      exact ⟨_, (Except.error.inj h).symm⟩

theorem foldl_append_singleton {α β : Type} (f : α → β) (l : List α) (init : List β) :
    l.foldl (fun written p => written ++ [f p]) init = init ++ l.map f := by
  induction l generalizing init with
  | nil => simp
  | cons a l ih => simp [List.foldl_cons, ih]

theorem csvWrite_eq {F : Type} (L : Float64Lib F) (dataset : Slice (Person F)) :
    csvWrite L dataset = headers :: dataset.toList.map (csvRecord L) := by
  unfold csvWrite
  rw [foldl_append_singleton]
  rfl

theorem isInt64_of_isInt32 (x : Int) (h : isInt32 x) : isInt64 x := by
  unfold isInt32 at h
  unfold isInt64
  omega

theorem Atoi_Itoa_int32 (x : Int) (h : isInt32 x) : Atoi (Itoa x) = Except.ok x :=
  Atoi_Itoa x (isInt64_of_isInt32 x h)

theorem newPerson_wellTyped {F : Type} (L : Float64Lib F) (i : Int) :
    (newPerson L i).WellTyped :=
  ⟨toInt32_isInt32 _, toInt32_isInt32 _, toInt32_isInt32 _, toInt32_isInt32 _,
    toInt32_isInt32 _, toInt32_isInt32 _⟩

theorem foldl_append_toList {α : Type} (ps : List α) (s : Slice α) :
    (ps.foldl Slice.append s).toList = s.toList ++ ps := by
  induction ps generalizing s with
  | nil => simp
  | cons p ps ih =>
    rw [List.foldl_cons, ih]
    simp [Slice.append, Slice.toList]

theorem csvReadLoop_all_ok {F : Type} (L : Float64Lib F) (pending : List (List String))
    (ps : List (Person F)) (people : Slice (Person F))
    (hall : List.Forall₂ (fun r p => r.length = 10 ∧ decodeRecord L r = Except.ok p)
      pending ps) :
    csvReadLoop L pending 10 people = Except.ok (ps.foldl Slice.append people) := by
  induction hall generalizing people with
  | nil => rfl
  | @cons r p rest ps1 hrp _ ih =>
    obtain ⟨hlen, hdec⟩ := hrp
    have hc : fieldCountCheck 10 r = Except.ok 10 := by
      simp [fieldCountCheck, hlen]
    simp only [csvReadLoop, hc, hdec, List.foldl_cons]
    exact ih _

/-! ## The claims on the CSV adapter -/

/-- C4: the row that `csvOperations` builds from a record `p` with `int32` fields has ten
fields and its positional parse succeeds whenever `ParseFloat` accepts the two float
texts; the record read has the `Name`, `Age`, `Email` and `Score1..Score5` of `p`, any
text being allowed for `Name` and `Email` (the empty one too), and the floats
`ParseFloat` returned.  Every record of the generator has `int32` fields. -/
theorem csv_row_roundtrip {F : Type} (L : Float64Lib F) (p : Person F) (b e : F)
    (hp : p.WellTyped) (hb : L.ParseFloat (L.FormatFloat p.Balance) = some b)
    (he : L.ParseFloat (L.FormatFloat p.Expenditure) = some e) :
    (csvRecord L p).length = 10 ∧
      decodeRecord L (csvRecord L p) =
        Except.ok { Name := p.Name, Age := p.Age, Email := p.Email, Score1 := p.Score1,
                    Score2 := p.Score2, Score3 := p.Score3, Score4 := p.Score4,
                    Score5 := p.Score5, Balance := b, Expenditure := e } ∧
      ∀ i : Int, (newPerson L i).WellTyped := by
  obtain ⟨h0, h1, h2, h3, h4, h5⟩ := hp
  refine ⟨rfl, ?_, fun i => newPerson_wellTyped L i⟩
  unfold csvRecord
  rw [decodeRecord_ten L _ _ _ _ _ _ _ _ _ _ p.Age p.Score1 p.Score2 p.Score3 p.Score4
    p.Score5 b e (Atoi_Itoa_int32 _ h0) (Atoi_Itoa_int32 _ h1) (Atoi_Itoa_int32 _ h2)
    (Atoi_Itoa_int32 _ h3) (Atoi_Itoa_int32 _ h4) (Atoi_Itoa_int32 _ h5) hb he]
  rw [toInt32_of_isInt32 _ h0, toInt32_of_isInt32 _ h1, toInt32_of_isInt32 _ h2,
    toInt32_of_isInt32 _ h3, toInt32_of_isInt32 _ h4, toInt32_of_isInt32 _ h5]

theorem csv_row_roundtrip_witness :
    (csvRecord halves samplePerson).length = 10 ∧
      decodeRecord halves (csvRecord halves samplePerson) =
        Except.ok { Name := samplePerson.Name, Age := samplePerson.Age,
                    Email := samplePerson.Email, Score1 := samplePerson.Score1,
                    Score2 := samplePerson.Score2, Score3 := samplePerson.Score3,
                    Score4 := samplePerson.Score4, Score5 := samplePerson.Score5,
                    Balance := 3, Expenditure := 21 } ∧
      ∀ i : Int, (newPerson halves i).WellTyped :=
  csv_row_roundtrip halves samplePerson 3 21 (by decide) (by decide) (by decide)

/-- C7: the rows handed to the CSV writer are the literal header row followed by one row
for each record, in dataset order; each data row has ten fields in the column order of
the header, and each integer field is the minimal decimal numeral of its value (no
leading zero, no plus sign). -/
theorem csvWrite_rows {F : Type} (L : Float64Lib F) (dataset : Slice (Person F)) :
    csvWrite L dataset = headers :: dataset.toList.map (csvRecord L) ∧
      headers = ["Name", "Age", "Email", "Score1", "Score2", "Score3", "Score4", "Score5",
        "Balance", "Expenditure"] ∧
      (csvWrite L dataset).length = dataset.len + 1 ∧
      ∀ p : Person F,
        csvRecord L p = [p.Name, Itoa p.Age, p.Email, Itoa p.Score1, Itoa p.Score2,
          Itoa p.Score3, Itoa p.Score4, Itoa p.Score5, L.FormatFloat p.Balance,
          L.FormatFloat p.Expenditure] ∧
        (csvRecord L p).length = headers.length ∧ (csvRecord L p).length = 10 ∧
        ∀ v ∈ [p.Age, p.Score1, p.Score2, p.Score3, p.Score4, p.Score5],
          IsMinimalDecimal (Itoa v) ∧ decimalValue (Itoa v) = v := by
  refine ⟨csvWrite_eq L dataset, rfl, ?_, ?_⟩
  · rw [csvWrite_eq]
    simp [Slice.len]
  · intro p
    exact ⟨rfl, rfl, rfl, fun v _ => ⟨Itoa_isMinimal v, decimalValue_Itoa v⟩⟩

/-- C5, as stated, fails on the code: an input without header row, whose first row is a data
row, is read without error and the first row is left out; an input that is one short row
is read as zero records.  (Floats of `halves` count halves: `0.5` is `1`, `2` is `4`.) -/
theorem csvRead_headerless_accepted :
    csvRead halves
        [["Alice", "30", "a@x.com", "1", "2", "3", "4", "5", "1.5", "2.5"],
         ["Bob", "41", "", "6", "7", "8", "9", "10", "0.5", "2"]] =
      Except.ok (Slice.ofList
        [{ Name := "Bob", Age := 41, Email := "", Score1 := 6, Score2 := 7, Score3 := 8,
           Score4 := 9, Score5 := 10, Balance := 1, Expenditure := 4 }]) ∧
    csvRead halves [["Name", "Age"]] = Except.ok Slice.nil := by
  decide

/-- C5, amended: the read step skips the first row unchecked.  Its result depends on that
row through its number of columns only; whatever the first row holds, when it has ten
columns and every later row has ten columns and parses, the read step returns without
error the records of the later rows, the first row left out; and when a row after the
first has fewer than ten columns the read step returns no records but stops the
process, by a fatal error when the first row has ten columns (as the header has). -/
theorem csvRead_skips_first_row {F : Type} (L : Float64Lib F) (header : List String)
    (pending : List (List String)) :
    (∀ header2 : List String, header2.length = header.length →
        csvRead L (header2 :: pending) = csvRead L (header :: pending)) ∧
      (∀ ps : List (Person F), header.length = 10 →
        List.Forall₂ (fun r p => r.length = 10 ∧ decodeRecord L r = Except.ok p) pending ps →
        ∃ people, csvRead L (header :: pending) = Except.ok people ∧ people.toList = ps) ∧
      ((∃ r ∈ pending, r.length < 10) →
        ∃ e, csvRead L (header :: pending) = Except.error e ∧ e.stopsProcess = true ∧
          (header.length = 10 → ∃ msg, e = Failure.fatal msg)) := by
  have hread : ∀ hd : List String,
      csvRead L (hd :: pending) = csvReadLoop L pending (hd.length : Int) Slice.nil := by
    intro hd
    simp [csvRead, fieldCountCheck]
  refine ⟨fun header2 hlen => by rw [hread, hread, hlen], ?_, ?_⟩
  · intro ps hten hall
    refine ⟨ps.foldl Slice.append Slice.nil, ?_, ?_⟩
    · rw [hread, hten]
      exact csvReadLoop_all_ok L pending ps Slice.nil hall
    · rw [foldl_append_toList]
      rfl
  · intro h
    obtain ⟨e, he, hstop⟩ := csvReadLoop_short_row L pending (header.length : Int) Slice.nil h
    refine ⟨e, by rw [hread, he], hstop, ?_⟩
    intro hten
    rw [hten] at he
    exact csvReadLoop_full_header L pending Slice.nil e he

theorem csvRead_skips_first_row_witness :
    (∃ people, csvRead halves
          [["Alice", "30", "a@x.com", "1", "2", "3", "4", "5", "1.5", "2.5"],
           ["Bob", "41", "", "6", "7", "8", "9", "10", "0.5", "2"]] = Except.ok people ∧
        people.toList =
          [{ Name := "Bob", Age := 41, Email := "", Score1 := 6, Score2 := 7, Score3 := 8,
             Score4 := 9, Score5 := 10, Balance := 1, Expenditure := 4 }]) ∧
      ∃ e, csvRead halves
            (headers :: [["Bob", "41", "", "6", "7", "8", "9", "10", "0.5", "2"],
              ["Eve", "20", "e@x.com"]]) = Except.error e ∧
        e.stopsProcess = true ∧ (headers.length = 10 → ∃ msg, e = Failure.fatal msg) :=
  ⟨(csvRead_skips_first_row halves
      ["Alice", "30", "a@x.com", "1", "2", "3", "4", "5", "1.5", "2.5"]
      [["Bob", "41", "", "6", "7", "8", "9", "10", "0.5", "2"]]).2.1 _ (by decide)
      (List.Forall₂.cons ⟨by decide, by decide⟩ List.Forall₂.nil),
    (csvRead_skips_first_row halves headers
      [["Bob", "41", "", "6", "7", "8", "9", "10", "0.5", "2"], ["Eve", "20", "e@x.com"]]).2.2
      ⟨["Eve", "20", "e@x.com"], by decide, by decide⟩⟩

/-- C10: a row of ten fields whose `Age` and `Score1..Score5` columns are decimal integer
texts with a value in the range of a 64-bit `int`, and whose float columns `ParseFloat`
accepts, is decoded without error; each integer column is stored as its value reduced
to 32 bits in two's complement (an `int32` congruent to the value modulo `2^32`). -/
theorem csv_decode_wraps {F : Type} (L : Float64Lib F)
    (c0 c1 c2 c3 c4 c5 c6 c7 c8 c9 : String) (b e : F)
    (hint : ∀ c ∈ [c1, c3, c4, c5, c6, c7], IsDecimal c ∧ isInt64 (decimalValue c))
    (hb : L.ParseFloat c8 = some b) (he : L.ParseFloat c9 = some e) :
    decodeRecord L [c0, c1, c2, c3, c4, c5, c6, c7, c8, c9] =
        Except.ok { Name := c0, Age := toInt32 (decimalValue c1), Email := c2,
                    Score1 := toInt32 (decimalValue c3), Score2 := toInt32 (decimalValue c4),
                    Score3 := toInt32 (decimalValue c5), Score4 := toInt32 (decimalValue c6),
                    Score5 := toInt32 (decimalValue c7), Balance := b, Expenditure := e } ∧
      ∀ c ∈ [c1, c3, c4, c5, c6, c7],
        isInt32 (toInt32 (decimalValue c)) ∧
          toInt32 (decimalValue c) % 2 ^ 32 = decimalValue c % 2 ^ 32 := by
  have hA : ∀ c ∈ [c1, c3, c4, c5, c6, c7], Atoi c = Except.ok (decimalValue c) :=
    fun c hc => Atoi_of_decimal c (hint c hc).1 (hint c hc).2
  refine ⟨?_, fun c _ => ⟨toInt32_isInt32 _, toInt32_emod _⟩⟩
  exact decodeRecord_ten L c0 c1 c2 c3 c4 c5 c6 c7 c8 c9 _ _ _ _ _ _ b e
    (hA c1 (by simp)) (hA c3 (by simp)) (hA c4 (by simp)) (hA c5 (by simp))
    (hA c6 (by simp)) (hA c7 (by simp)) hb he

theorem csv_decode_wraps_witness :
    decodeRecord halves
        ["Bob", "4294967296", "", "-1", "2147483648", "+7", "007", "9223372036854775807",
          "0.5", "2"] =
      Except.ok { Name := "Bob", Age := 0, Email := "", Score1 := -1, Score2 := -2147483648,
                  Score3 := 7, Score4 := 7, Score5 := -1, Balance := 1, Expenditure := 4 } :=
  (csv_decode_wraps halves "Bob" "4294967296" "" "-1" "2147483648" "+7" "007"
    "9223372036854775807" "0.5" "2" 1 4 (by decide) (by decide) (by decide)).1.trans
    (by decide)

/-! ## Lemmas on the JSON adapter -/

theorem marshalPerson_eq {F : Type} (L : Float64Lib F) (p : Person F) (bt et : String)
    (hb : L.jsonFloat p.Balance = some bt) (he : L.jsonFloat p.Expenditure = some et) :
    marshalPerson L p =
      some [("Name", JScalar.str p.Name), ("Age", JScalar.num (Itoa p.Age)),
        ("Email", JScalar.str p.Email), ("Score1", JScalar.num (Itoa p.Score1)),
        ("Score2", JScalar.num (Itoa p.Score2)), ("Score3", JScalar.num (Itoa p.Score3)),
        ("Score4", JScalar.num (Itoa p.Score4)), ("Score5", JScalar.num (Itoa p.Score5)),
        ("Balance", JScalar.num bt), ("Expenditure", JScalar.num et)] := by
  have hk : PersonFields.map jsonKey =
      [some "Name", some "Age", some "Email", some "Score1", some "Score2", some "Score3",
        some "Score4", some "Score5", some "Balance", some "Expenditure"] := by decide
  simp only [PersonFields, List.map_cons, List.map_nil, List.cons.injEq, and_true] at hk
  obtain ⟨k0, k1, k2, k3, k4, k5, k6, k7, k8, k9⟩ := hk
  simp only [marshalPerson, PersonFields, Person.fieldValues, List.zip_cons_cons,
    List.zip_nil_right, marshalFields, k0, k1, k2, k3, k4, k5, k6, k7, k8, k9, marshalValue, hb,
    he, Option.map_some']

theorem marshalElems_keys {F : Type} (L : Float64Lib F) (ds : List (Person F))
    (hfin : ∀ p ∈ ds, (L.jsonFloat p.Balance).isSome = true ∧
      (L.jsonFloat p.Expenditure).isSome = true) :
    ∃ objs, marshalElems L ds = some objs ∧ objs.length = ds.length ∧
      ∀ o ∈ objs, o.map Prod.fst =
        ["Name", "Age", "Email", "Score1", "Score2", "Score3", "Score4", "Score5", "Balance",
          "Expenditure"] := by
  induction ds with
  | nil => exact ⟨[], rfl, rfl, by simp⟩
  | cons p rest ih =>
    obtain ⟨objs, hobjs, hlen, hkeys⟩ := ih (fun q hq => hfin q (List.mem_cons_of_mem _ hq))
    obtain ⟨hb, he⟩ := hfin p (List.mem_cons_self _ _)
    obtain ⟨bt, hbt⟩ := Option.isSome_iff_exists.mp hb
    obtain ⟨et, het⟩ := Option.isSome_iff_exists.mp he
    have hp := marshalPerson_eq L p bt et hbt het
    refine ⟨_ :: objs, by rw [marshalElems, hp, hobjs], by simp [hlen], ?_⟩
    intro o ho
    rcases List.mem_cons.mp ho with ho | ho
    · rw [ho]; rfl
    · exact hkeys o ho

/-! ## The claims on the JSON adapter and on the empty dataset -/

/-- C6, as stated, fails on the code: the object written for a record has the keys `Name`,
`Age`, ..., `Expenditure`, and none of the lower-cased names. -/
theorem json_keys_are_field_names :
    (jsonMarshal halves (Slice.ofList [newPerson halves 7])).map JDoc.keys =
        some [["Name", "Age", "Email", "Score1", "Score2", "Score3", "Score4", "Score5",
          "Balance", "Expenditure"]] ∧
      (jsonMarshal halves (Slice.ofList [newPerson halves 7])).map JDoc.keys ≠
        some [["name", "age", "email", "score1", "score2", "score3", "score4", "score5",
          "balance", "expenditure"]] ∧
      (jsonMarshal halves (Slice.ofList [newPerson halves 7])).map (JDoc.render halves) =
        some ("[\x7b\"Name\":\"Person_7\",\"Age\":7,\"Email\":\"person7@example.com\"," ++
          "\"Score1\":7,\"Score2\":7,\"Score3\":7,\"Score4\":7,\"Score5\":7," ++
          "\"Balance\":10.5,\"Expenditure\":17.5\x7d]") := by
  decide

/-- C6, amended: when every float of the dataset has a JSON literal, `json.Marshal` succeeds,
writes one object for each record, and each object has exactly the ten keys `Name`,
`Age`, `Email`, `Score1..Score5`, `Balance`, `Expenditure` in this order: the Go field
names, as `Person` has no `json` tags.  The lower-cased names are the column names of
the parquet schema. -/
theorem jsonMarshal_keys {F : Type} (L : Float64Lib F) (dataset : Slice (Person F))
    (hfin : ∀ p ∈ dataset.toList, (L.jsonFloat p.Balance).isSome = true ∧
      (L.jsonFloat p.Expenditure).isSome = true) :
    ∃ doc, jsonMarshal L dataset = some doc ∧ doc.keys.length = dataset.len ∧
      (∀ ks ∈ doc.keys, ks =
        ["Name", "Age", "Email", "Score1", "Score2", "Score3", "Score4", "Score5", "Balance",
          "Expenditure"]) ∧
      (SchemaOf PersonFields).map (fun c => c.name) =
        ["name", "age", "email", "score1", "score2", "score3", "score4", "score5", "balance",
          "expenditure"] := by
  cases dataset with
  | nil => exact ⟨JDoc.null, rfl, rfl, by simp [JDoc.keys], by decide⟩
  | ofList ds =>
    obtain ⟨objs, hobjs, hlen, hkeys⟩ := marshalElems_keys L ds hfin
    refine ⟨JDoc.array objs, by simp [jsonMarshal, hobjs], ?_, ?_, by decide⟩
    · simp [JDoc.keys, Slice.len, Slice.toList, hlen]
    · intro ks hks
      simp only [JDoc.keys, List.mem_map] at hks
      obtain ⟨o, ho, rfl⟩ := hks
      exact hkeys o ho

theorem jsonMarshal_keys_witness :
    ∃ doc, jsonMarshal halves (Slice.ofList [samplePerson, newPerson halves 3]) = some doc ∧
      doc.keys.length = (Slice.ofList [samplePerson, newPerson halves 3]).len ∧
      (∀ ks ∈ doc.keys, ks =
        ["Name", "Age", "Email", "Score1", "Score2", "Score3", "Score4", "Score5", "Balance",
          "Expenditure"]) ∧
      (SchemaOf PersonFields).map (fun c => c.name) =
        ["name", "age", "email", "score1", "score2", "score3", "score4", "score5", "balance",
          "expenditure"] :=
  jsonMarshal_keys halves (Slice.ofList [samplePerson, newPerson halves 3]) (by decide)

/-- C8: `generateDataset(0)` is an empty slice that is not nil, and on it each adapter writes
an empty dataset and reads zero records back without failure: the CSV file holds the
header row only, the JSON text is `[]` (the document of an empty array, not `null`), and
the parquet file holds the schema of `Person` and no row. -/
theorem empty_dataset_cycle {F : Type} (L : Float64Lib F) :
    ∃ ds, generateDataset L 0 = Except.ok ds ∧ ds = Slice.ofList [] ∧ ds.len = 0 ∧
      (∃ people, csvOperations L ds = Except.ok ([headers], people) ∧ people.len = 0) ∧
      (∃ doc people, jsonOperations L ds = Except.ok (doc, people) ∧ people.len = 0 ∧
        doc.render L = "[]" ∧ doc ≠ JDoc.null ∧ doc.render L ≠ "null") ∧
      (∃ people, parquetOperations ds =
          ({ schema := SchemaOf PersonFields, rows := [] }, people) ∧ people.len = 0) := by
  refine ⟨Slice.ofList [], rfl, rfl, rfl, ⟨Slice.nil, rfl, rfl⟩, ?_, ⟨Slice.nil, rfl, rfl⟩⟩
  refine ⟨JDoc.array [], Slice.ofList [], rfl, rfl, rfl, ?_, ?_⟩
  · intro h; cases h
  · intro h
    have hne : ("[]" : String) ≠ "null" := by decide
    exact hne h

end ParquetBench
